import Mathlib

/-!
Verification development for the OpenRW `GameConfig` configuration adapter
(`src/rwgame/GameConfig.cpp`).

The C++ code is shallowly embedded as executable Lean definitions:

* `Ptree` models the two-level `boost::property_tree::ptree` produced by
  `read_ini` (root children that are either plain `key=value` items or
  sections with `key=value` children).
* `readIni` / `writeIni` model `boost::property_tree::read_ini` /
  `write_ini` for such two-level trees.
* `stoi` models `std::stoi` (base 10), with `StoiErr.invalidArgument` for
  "no digits" and `StoiErr.outOfRange` for values outside the range of a
  32-bit `int`.
* `StringTranslator` / `BoolTranslator` / `IntTranslator` model the three
  translator structs; an uncaught C++ exception is modelled by the
  `Except Exc` layer (the only uncaught exception reachable from
  `parseConfig` is `std::out_of_range` from `std::stoi`).
* `read_config` models the generic lambda in `GameConfig::parseConfig`, and
  `parseConfig` the whole member function.  File contents are supplied by an
  explicit filesystem valuation `FS : String → Option String`.  Note that for
  a `STRING` source the C++ code calls `pt::read_ini(source, srcTree)`, which
  is the *filename* overload of `read_ini`: the source text is used as a file
  name (throwing `ini_parser_error` "cannot open file" if no such file
  exists), it is not parsed as INI text.  The `FILE` branch constructs an
  `std::ifstream` and uses the stream overload, which yields an empty tree
  when the file cannot be opened.
-/

/-- C `isspace` in the default locale: the six standard whitespace
characters.  Used by `boost::property_tree::detail::trim` and `std::stoi`. -/
def isSpaceC (c : Char) : Bool :=
  c = ' ' || c = '\t' || c = '\n' || c = '\x0b' || c = '\x0c' || c = '\r'

/-- The character set `" \n\r\t"` used by `stripComments`'
`find_last_not_of`. -/
def wsStripChars : List Char := [' ', '\n', '\r', '\t']

/-- Drop leading whitespace (left half of `boost` `detail::trim`). -/
def trimLeft (cs : List Char) : List Char := cs.dropWhile isSpaceC

/-- Drop trailing whitespace (right half of `boost` `detail::trim`). -/
def trimRight (cs : List Char) : List Char :=
  (cs.reverse.dropWhile isSpaceC).reverse

/-- `boost::property_tree::detail::trim`: strip whitespace on both ends. -/
def trim (cs : List Char) : List Char := trimRight (trimLeft cs)

/-- Index of the first character of `cs` that occurs in `set`
(`std::string::find_first_of`), `none` for `npos`. -/
def findFirstOfIdx : List Char → List Char → Option Nat
  | [], _ => none
  | c :: cs, set =>
    if set.contains c then some 0 else (findFirstOfIdx cs set).map (· + 1)

/-- Index of the last character of `cs` that does *not* occur in `set`
(`std::string::find_last_not_of`), `none` for `npos`. -/
def findLastNotOfIdx : List Char → List Char → Option Nat
  | [], _ => none
  | c :: cs, set =>
    match findLastNotOfIdx cs set with
    | some i => some (i + 1)
    | none => if set.contains c then none else some 0

/-- `std::string(str, 0, str.find_first_of(";#"))`: the prefix of the string
before the first `;` or `#` (the whole string when neither occurs). -/
def commentCut (cs : List Char) : List Char :=
  match findFirstOfIdx cs [';', '#'] with
  | none => cs
  | some i => cs.take i

/-- `s.erase(s.find_last_not_of(" \n\r\t")+1)`: keep everything up to and
including the last non-whitespace character (`npos + 1 = 0` erases all of an
all-whitespace string). -/
def wsCut (cs : List Char) : List Char :=
  match findLastNotOfIdx cs wsStripChars with
  | none => []
  | some i => cs.take (i + 1)

/-- `stripComments` from `GameConfig.cpp` on character lists. -/
def stripCommentsL (cs : List Char) : List Char := wsCut (commentCut cs)

/-- `std::string stripComments(const std::string&)` from `GameConfig.cpp`. -/
def stripComments (s : String) : String := ⟨stripCommentsL s.data⟩

/-- Spec-side reformulation ("the prefix of the string before the first
occurrence of `;` or `#`"), for comparison with the source-side
`commentCut`. -/
def prefixSpec (cs : List Char) : List Char :=
  cs.takeWhile (fun c => !([';', '#'] : List Char).contains c)

/-- Spec-side reformulation ("with trailing whitespace (space, \n, \r, \t)
removed"), for comparison with the source-side `wsCut`. -/
def rstripSpec (cs : List Char) : List Char :=
  (cs.reverse.dropWhile (fun c => wsStripChars.contains c)).reverse

/-- The two `std::stoi` failure modes. -/
inductive StoiErr where
  | invalidArgument
  | outOfRange
  deriving DecidableEq

/-- `std::stoi(s)` with base 10: skip leading whitespace, optional sign,
then decimal digits.  No digits → `std::invalid_argument`; a parsed value
outside the range of a 32-bit `int` → `std::out_of_range`. -/
def stoi (s : String) : Except StoiErr Int :=
  let cs := s.data.dropWhile isSpaceC
  let sgncs : Int × List Char :=
    match cs with
    | '-' :: r => (-1, r)
    | '+' :: r => (1, r)
    | _ => (1, cs)
  let ds := sgncs.2.takeWhile Char.isDigit
  if ds.isEmpty then .error .invalidArgument
  else
    let n : Nat := ds.foldl (fun a c => a * 10 + (c.toNat - 48)) 0
    let v : Int := sgncs.1 * n
    if v < -2147483648 ∨ 2147483647 < v then .error .outOfRange else .ok v

/-- Exceptions that escape `parseConfig` uncaught: only `std::out_of_range`
raised by `std::stoi` inside a translator (the translators catch only
`std::invalid_argument`). -/
inductive Exc where
  | outOfRange
  deriving DecidableEq

/-- A `boost` translator as used by `ptree::get` / `ptree::put`:
`get_value` decodes raw text (`.ok none` models an empty
`boost::optional`, which makes `ptree::get` throw `ptree_bad_data`;
`.error` models an exception escaping the translator), and `put_value`
encodes a typed value (both translators always succeed on write). -/
structure Translator (α : Type) where
  get_value : String → Except Exc (Option α)
  put_value : α → String

/-- `StringTranslator` from `GameConfig.cpp`: decode = `stripComments`,
encode = identity. -/
def StringTranslator : Translator String where
  get_value := fun s => .ok (some (stripComments s))
  put_value := fun s => s

/-- `BoolTranslator` from `GameConfig.cpp`: decode =
`std::stoi(stripComments(str)) != 0` catching only
`std::invalid_argument`; encode true/false as "1"/"0". -/
def BoolTranslator : Translator Bool where
  get_value := fun s =>
    match stoi (stripComments s) with
    | .ok i => .ok (some (i != 0))
    | .error .invalidArgument => .ok none
    | .error .outOfRange => .error .outOfRange
  put_value := fun b => if b then "1" else "0"

/-- `IntTranslator` from `GameConfig.cpp`: decode =
`std::stoi(stripComments(str))` catching only `std::invalid_argument`;
encode via `std::to_string`.  (Unused by the current field table.) -/
def IntTranslator : Translator Int where
  get_value := fun s =>
    match stoi (stripComments s) with
    | .ok i => .ok (some i)
    | .error .invalidArgument => .ok none
    | .error .outOfRange => .error .outOfRange
  put_value := fun i => toString i

/-- The in-memory settings record: the fields of class `GameConfig` that
`parseConfig` can read or write (`m_configName`/`m_configPath` are fixed at
construction and omitted). -/
structure GameConfigRec where
  m_gamePath : String
  m_gameLanguage : String
  m_inputInvertY : Bool
  m_valid : Bool
  deriving DecidableEq

/-- `isValid()` accessor. -/
def GameConfigRec.isValid (c : GameConfigRec) : Bool := c.m_valid

/-- A root child of the property tree: its own data plus its `key=value`
children (the trees arising here are at most two levels deep). -/
structure PEntry where
  data : String
  kids : List (String × String)
  deriving DecidableEq

/-- The property tree (`pt::ptree`) as an ordered association list of root
children. -/
abbrev Ptree := List (String × PEntry)

/-- First-match association-list lookup (`ptree` child lookup). -/
def lookupKV {α : Type} : List (String × α) → String → Option α
  | [], _ => none
  | (k, v) :: rest, key => if k = key then some v else lookupKV rest key

/-- `ptree::get` along a two-component path `sec.key`: find the root child
`sec`, then its child `key`, and return that node's data.  `none` models
`ptree_bad_path`. -/
def getSK (t : Ptree) (sec key : String) : Option String :=
  match lookupKV t sec with
  | none => none
  | some e => lookupKV e.kids key

/-- Replace the value of key `k` in a section's children, or append it
(`ptree::put` at the leaf level: overwrite the first match, else add). -/
def putKids : List (String × String) → String → String → List (String × String)
  | [], k, v => [(k, v)]
  | (k', v') :: rest, k, v =>
    if k' = k then (k', v) :: rest else (k', v') :: putKids rest k v

/-- `ptree::put` along a two-component path `sec.key`: update the first root
child named `sec` (creating it if absent) and set `key` in it. -/
def putSK (t : Ptree) (sec key v : String) : Ptree :=
  match t with
  | [] => [(sec, ⟨"", [(key, v)]⟩)]
  | (s', e) :: rest =>
    if s' = sec then (s', ⟨e.data, putKids e.kids key v⟩) :: rest
    else (s', e) :: putSK rest sec key v

/-- Append a `key=value` child to the (unique) section `sec`
(`read_ini` inserts keys at the end of the current section). -/
def addKid (t : Ptree) (sec key v : String) : Ptree :=
  match t with
  | [] => [(sec, ⟨"", [(key, v)]⟩)]
  | (s', e) :: rest =>
    if s' = sec then (s', ⟨e.data, e.kids ++ [(key, v)]⟩) :: rest
    else (s', e) :: addKid rest sec key v

/-- Split a character stream into `std::getline` lines at `'\n'`. -/
def splitLinesAux : List Char → List Char → List (List Char)
  | [], acc => [acc.reverse]
  | '\n' :: rest, acc => acc.reverse :: splitLinesAux rest []
  | c :: rest, acc => splitLinesAux rest (c :: acc)

/-- All lines of a text, as read by the `read_ini` line loop. -/
def splitLines (cs : List Char) : List (List Char) := splitLinesAux cs []

/-- One iteration of the `boost` `read_ini` line loop.  State: the tree so
far and the current section (if any).  `Except.error ()` models
`ini_parser_error` ("unmatched '['", "'=' character not found in line",
"key expected", "duplicate section name", "duplicate key name"). -/
def iniLine (st : Ptree × Option String) (rawLine : List Char) :
    Except Unit (Ptree × Option String) :=
  let l := trim rawLine
  match l with
  | [] => .ok st
  | c :: rest =>
    if c = ';' then .ok st
    else if c = '[' then
      match findFirstOfIdx rest [']'] with
      | none => .error ()
      | some i =>
        let name : String := ⟨trim (rest.take i)⟩
        match lookupKV st.1 name with
        | some _ => .error ()
        | none => .ok (st.1 ++ [(name, ⟨"", []⟩)], some name)
    else
      match findFirstOfIdx l ['='] with
      | none => .error ()
      | some 0 => .error ()
      | some (i + 1) =>
        let key : String := ⟨trim (l.take (i + 1))⟩
        let dataV : String := ⟨trim (l.drop (i + 2))⟩
        match st.2 with
        | none =>
          match lookupKV st.1 key with
          | some _ => .error ()
          | none => .ok (st.1 ++ [(key, ⟨dataV, []⟩)], none)
        | some s =>
          match lookupKV st.1 s with
          | none => .error ()
          | some e =>
            match lookupKV e.kids key with
            | some _ => .error ()
            | none => .ok (addKid st.1 s key dataV, some s)

/-- `boost::property_tree::read_ini` on a character stream with the given
contents: process every line, threading the tree and current section. -/
def readIni (text : String) : Except Unit Ptree :=
  (List.foldlM iniLine (([] : Ptree), (none : Option String))
    (splitLines text.data)).map (fun st => st.1)

/-- Serialize one section's children as `key=value` lines. -/
def writeKids (kids : List (String × String)) : String :=
  kids.foldl (fun acc kv => acc ++ kv.1 ++ "=" ++ kv.2 ++ "\n") ""

/-- `boost::property_tree::write_ini` for two-level trees: childless root
entries first as `key=value` lines, then each section as `[name]` followed
by its `key=value` lines. -/
def writeIni (t : Ptree) : String :=
  (t.foldl (fun acc se =>
      if se.2.kids.isEmpty then acc ++ se.1 ++ "=" ++ se.2.data ++ "\n"
      else acc) "")
  ++ (t.foldl (fun acc se =>
      if se.2.kids.isEmpty then acc
      else acc ++ "[" ++ se.1 ++ "]\n" ++ writeKids se.2.kids) "")

/-- `GameConfig::ParseType`. -/
inductive ParseType where
  | DEFAULT
  | CONFIG
  | FILE
  | STRING
  deriving DecidableEq

/-- A filesystem valuation: file name ↦ contents (if the file exists). -/
abbrev FS := String → Option String

/-- The empty filesystem. -/
def fsEmpty : FS := fun _ => none

/-- A one-file filesystem. -/
def fsWith (nm contents : String) : FS :=
  fun f => if f = nm then some contents else none

/-- The observable outcome of a (normally returning) `parseConfig` call:
the returned `bool`, the fields of `*this`, and the `destination` string. -/
structure PCResult where
  ret : Bool
  cfg : GameConfigRec
  dest : String
  deriving DecidableEq

/-- The generic `read_config` lambda of `GameConfig::parseConfig`,
instantiated at target type `α` via an explicit getter/setter pair for the
target field.  State: `(success, srcTree, fields of *this)`.
Early returns: a missing key with `opt = false` and undecodable data both
set `success = false` and skip the `put` and the destination dispatch; an
exception escaping the translator aborts everything. -/
def read_config {α : Type} (srcType destType : ParseType) (sec key : String)
    (get : GameConfigRec → α) (set : α → GameConfigRec → GameConfigRec)
    (defaultValue : α) (tr : Translator α) (opt : Bool)
    (st : Bool × Ptree × GameConfigRec) :
    Except Exc (Bool × Ptree × GameConfigRec) :=
  let suc := st.1
  let tree := st.2.1
  let cfg := st.2.2
  let finish : α → Except Exc (Bool × Ptree × GameConfigRec) := fun v =>
    let tree2 := putSK tree sec key (tr.put_value v)
    match destType with
    | ParseType.DEFAULT => .ok (false, tree2, cfg)
    | ParseType.CONFIG => .ok (suc, tree2, set v cfg)
    | _ => .ok (suc, tree2, cfg)
  match srcType with
  | ParseType.DEFAULT => finish defaultValue
  | ParseType.CONFIG => finish (get cfg)
  | _ =>
    match getSK tree sec key with
    | none => if opt then finish defaultValue else .ok (false, tree, cfg)
    | some raw =>
      match tr.get_value raw with
      | .error e => .error e
      | .ok none => .ok (false, tree, cfg)
      | .ok (some v) => finish v

/-- `GameConfig::parseConfig`.  `fs` supplies file contents.  Source
resolution is overload-faithful: a `STRING` source is passed to the
*filename* overload of `read_ini` (the text names a file; a missing file
throws `ini_parser_error`, caught below), while a `FILE` source goes
through an `std::ifstream` (a missing file yields an empty tree).  Then the
three `read_config` field descriptors run in order, and on success a
`STRING`/`FILE` destination is serialized. -/
def parseConfig (fs : FS) (srcType : ParseType) (source : String)
    (destType : ParseType) (cfg : GameConfigRec) (destination : String) :
    Except Exc PCResult :=
  let parsed : Except Unit Ptree :=
    match srcType with
    | ParseType.STRING =>
      match fs source with
      | none => .error ()
      | some contents => readIni contents
    | ParseType.FILE =>
      match fs source with
      | none => .ok []
      | some contents => readIni contents
    | _ => .ok []
  match parsed with
  | .error _ => .ok ⟨false, cfg, destination⟩
  | .ok srcTree =>
    match destType with
    | ParseType.DEFAULT => .ok ⟨false, cfg, destination⟩
    | _ =>
      match read_config srcType destType "game" "path" (fun c => c.m_gamePath)
          (fun v c => { c with m_gamePath := v }) "/opt/games/Grand Theft Auto 3"
          StringTranslator false (true, srcTree, cfg) with
      | .error e => .error e
      | .ok st1 =>
        match read_config srcType destType "game" "language" (fun c => c.m_gameLanguage)
            (fun v c => { c with m_gameLanguage := v }) "american"
            StringTranslator true st1 with
        | .error e => .error e
        | .ok st2 =>
          match read_config srcType destType "input" "invert_y" (fun c => c.m_inputInvertY)
              (fun v c => { c with m_inputInvertY := v }) false
              BoolTranslator true st2 with
          | .error e => .error e
          | .ok st3 =>
            if st3.1 then
              match destType with
              | ParseType.STRING => .ok ⟨true, st3.2.2, writeIni st3.2.1⟩
              | _ => .ok ⟨true, st3.2.2, destination⟩
            else .ok ⟨false, st3.2.2, destination⟩

/-- `GameConfig::saveConfig()`: a `CONFIG → FILE` transfer to the resolved
config file name; returns the `bool` and the (unchanged) fields. -/
def saveConfig (fs : FS) (cfg : GameConfigRec) (configFile : String) :
    Bool × GameConfigRec :=
  match parseConfig fs ParseType.CONFIG "" ParseType.FILE cfg configFile with
  | .ok r => (r.ret, r.cfg)
  | .error _ => (false, cfg)

/-- `GameConfig::getDefaultINIString()`: a `DEFAULT → STRING` transfer into
a local string; returns that string and the (unchanged) fields. -/
def getDefaultINIString (fs : FS) (cfg : GameConfigRec) :
    String × GameConfigRec :=
  match parseConfig fs ParseType.DEFAULT "" ParseType.STRING cfg "" with
  | .ok r => (r.dest, r.cfg)
  | .error _ => ("", cfg)

/-- The `GameConfig` constructor for a nonempty `configPath` (the
empty-path case resolves a platform/environment default directory, which is
out of scope): fields start as `m_valid = false`, `m_inputInvertY = false`,
empty strings; then `m_valid` is set from a `FILE → CONFIG` parse of
`configPath + "/" + configName`.  `Except.error` models the constructor
terminating by an uncaught exception. -/
def GameConfig.construct (fs : FS) (configName configPath : String) :
    Except Exc GameConfigRec :=
  let configFile := configPath ++ "/" ++ configName
  let cfg0 : GameConfigRec := ⟨"", "", false, false⟩
  match parseConfig fs ParseType.FILE configFile ParseType.CONFIG cfg0 "" with
  | .error e => .error e
  | .ok r => .ok { r.cfg with m_valid := r.ret }

/-- A freshly default-constructed settings record. -/
def freshRec : GameConfigRec := ⟨"", "", false, false⟩

/-- The language value a successful load leaves in `m_gameLanguage`, as a
function of the parsed source tree. -/
def resolvedLang (t : Ptree) : String :=
  match getSK t "game" "language" with
  | none => "american"
  | some raw => stripComments raw

/-- Outcome of the two optional field descriptors during a `FILE`/`STRING` →
`CONFIG` transfer over parsed tree `t`, given whether the required
`game.path` lookup succeeded (`okPath`) and the record after the `game.path`
descriptor (`cfg1`). -/
def loadRest (t : Ptree) (okPath : Bool) (cfg1 : GameConfigRec) (d : String) :
    Except Exc PCResult :=
  let cfg2 := { cfg1 with m_gameLanguage := resolvedLang t }
  match getSK t "input" "invert_y" with
  | none => .ok ⟨okPath, { cfg2 with m_inputInvertY := false }, d⟩
  | some raw =>
    match BoolTranslator.get_value raw with
    | .error e => .error e
    | .ok none => .ok ⟨false, cfg2, d⟩
    | .ok (some b) => .ok ⟨okPath, { cfg2 with m_inputInvertY := b }, d⟩

/-- Closed-form outcome of a `FILE`/`STRING` → `CONFIG` transfer whose
source parsed to tree `t` (proved equal to `parseConfig` below). -/
def loadOutcome (t : Ptree) (cfg : GameConfigRec) (d : String) :
    Except Exc PCResult :=
  match getSK t "game" "path" with
  | none => loadRest t false cfg d
  | some raw => loadRest t true { cfg with m_gamePath := stripComments raw } d

/-- The end-to-end example source text from the spec. -/
def iniGta3 : String := "[game]\npath=/data/games/gta3"

/-- A source with `game.path` absent and an out-of-range `invert_y` token. -/
def c1Text : String := "[input]\ninvert_y=99999999999999999999"

/-- A source with a well-formed `game.path` and undecodable `invert_y`. -/
def c5Text : String := "[game]\npath=/x\n[input]\ninvert_y=yes"

/-- A source with `game.path` absent, a decodable `game.language`, and an
out-of-range `invert_y` token (`2^32`). -/
def c8Text : String := "[game]\nlanguage=english\n[input]\ninvert_y=4294967296"

/-- A source with `game.path` present and an out-of-range `invert_y`. -/
def c9Text : String := "[game]\npath=/x\n[input]\ninvert_y=99999999999999999999"

/-- A syntactically invalid source: duplicate key `path` in one section. -/
def dupKeyText : String := "[game]\npath=a\npath=b"

/-- A well-formed source with `game.path` absent. -/
def noPathText : String := "[game]\nlanguage=american"

/-- A well-formed source with `game.path` absent, a commented language
value, and a nonzero `invert_y`. -/
def c8WitnessText : String := "[game]\nlanguage=french ; x\n[input]\ninvert_y=2"

/-- Sources exercising the boolean codec on the `input.invert_y` key. -/
def c4Src (tok : String) : String := "[game]\npath=/x\n[input]\ninvert_y=" ++ tok

/-- A source with `game.path` present and `input.invert_y` absent. -/
def c4Absent : String := "[game]\npath=/x"

/-- The tree `readIni` produces for `c1Text`. -/
def c1Tree : Ptree := [("input", ⟨"", [("invert_y", "99999999999999999999")]⟩)]

/-- The tree `readIni` produces for `noPathText`. -/
def noPathTree : Ptree := [("game", ⟨"", [("language", "american")]⟩)]

/-- The tree `readIni` produces for `c5Text`. -/
def c5Tree : Ptree :=
  [("game", ⟨"", [("path", "/x")]⟩), ("input", ⟨"", [("invert_y", "yes")]⟩)]

/-- The tree `readIni` produces for `c8Text`. -/
def c8Tree : Ptree :=
  [("game", ⟨"", [("language", "english")]⟩),
   ("input", ⟨"", [("invert_y", "4294967296")]⟩)]

/-- The tree `readIni` produces for `c8WitnessText`. -/
def c8WitnessTree : Ptree :=
  [("game", ⟨"", [("language", "french ; x")]⟩),
   ("input", ⟨"", [("invert_y", "2")]⟩)]

/-- The `parseConfig` outcome on `c8WitnessText` (game.path absent): returns
false, but the remaining fields have been decoded and applied. -/
def c8WitnessRes : PCResult := ⟨false, ⟨"", "french", true, false⟩, ""⟩

/-! ## Helper lemmas -/

theorem commentCut_eq (cs : List Char) : commentCut cs = prefixSpec cs := by
  induction cs with
  | nil => rfl
  | cons c cs ih =>
    by_cases h1 : c = ';'
    · subst h1; rfl
    · by_cases h2 : c = '#'
      · subst h2; rfl
      · have hb : (([';', '#'] : List Char).contains c) = false := by
          simp [h1, h2]
        unfold commentCut prefixSpec at ih ⊢
        rw [show findFirstOfIdx (c :: cs) [';', '#'] =
              (findFirstOfIdx cs [';', '#']).map (· + 1) from by
            simp [findFirstOfIdx, hb, h1, h2]]
        rw [List.takeWhile_cons, hb]
        cases hf : findFirstOfIdx cs [';', '#'] with
        | none => rw [hf] at ih; simpa using ih
        | some i => rw [hf] at ih; simpa using ih

theorem findLastNotOfIdx_concat (set : List Char) (xs : List Char) (c : Char) :
    findLastNotOfIdx (xs ++ [c]) set =
      if c ∈ set then findLastNotOfIdx xs set else some xs.length := by
  induction xs with
  | nil => by_cases h : c ∈ set <;> simp [findLastNotOfIdx, h]
  | cons x xs ih =>
    by_cases h : c ∈ set
    · simp only [h, if_true] at ih ⊢
      show (match findLastNotOfIdx (xs ++ [c]) set with
            | some i => some (i + 1)
            | none => if set.contains x then none else some 0) = _
      rw [ih]; rfl
    · simp only [h, if_false] at ih ⊢
      show (match findLastNotOfIdx (xs ++ [c]) set with
            | some i => some (i + 1)
            | none => if set.contains x then none else some 0) = _
      rw [ih]; simp

theorem findLastNotOfIdx_lt_length (set : List Char) (cs : List Char) (i : Nat)
    (h : findLastNotOfIdx cs set = some i) : i < cs.length := by
  induction cs generalizing i with
  | nil => simp [findLastNotOfIdx] at h
  | cons c cs ih =>
    rw [show findLastNotOfIdx (c :: cs) set =
        (match findLastNotOfIdx cs set with
         | some j => some (j + 1)
         | none => if set.contains c then none else some 0) from rfl] at h
    cases hf : findLastNotOfIdx cs set with
    | some j =>
      rw [hf] at h
      cases h
      exact Nat.succ_lt_succ (ih j hf)
    | none =>
      rw [hf] at h
      cases hc : set.contains c <;> rw [hc] at h
      · cases h; exact Nat.succ_pos _
      · cases h

theorem wsCut_eq (cs : List Char) : wsCut cs = rstripSpec cs := by
  induction cs using List.reverseRecOn with
  | nil => rfl
  | append_singleton xs c ih =>
    by_cases hc : c ∈ wsStripChars
    · have hb : wsStripChars.contains c = true := by simpa using hc
      have h1 : wsCut (xs ++ [c]) = wsCut xs := by
        unfold wsCut
        rw [findLastNotOfIdx_concat, if_pos hc]
        cases hf : findLastNotOfIdx xs wsStripChars with
        | none => rfl
        | some i =>
          have hlt := findLastNotOfIdx_lt_length wsStripChars xs i hf
          simp only
          exact List.take_append_of_le_length hlt
      have h2 : rstripSpec (xs ++ [c]) = rstripSpec xs := by
        unfold rstripSpec
        rw [List.reverse_append]
        simp [List.dropWhile_cons, hc]
      rw [h1, h2, ih]
    · have hb : wsStripChars.contains c = false := by simpa using hc
      have h1 : wsCut (xs ++ [c]) = xs ++ [c] := by
        unfold wsCut
        rw [findLastNotOfIdx_concat, if_neg hc]
        simp
      have h2 : rstripSpec (xs ++ [c]) = xs ++ [c] := by
        unfold rstripSpec
        rw [List.reverse_append]
        simp [List.dropWhile_cons, hc]
      rw [h1, h2]

theorem stripCommentsL_eq (cs : List Char) :
    stripCommentsL cs = rstripSpec (prefixSpec cs) := by
  unfold stripCommentsL
  rw [commentCut_eq, wsCut_eq]

theorem lookupKV_putKids_ne {k k' : String} (ks : List (String × String))
    (v : String) (h : k ≠ k') :
    lookupKV (putKids ks k v) k' = lookupKV ks k' := by
  induction ks with
  | nil => simp [putKids, lookupKV, h]
  | cons kv rest ih =>
    obtain ⟨k0, v0⟩ := kv
    by_cases h0 : k0 = k
    · subst h0
      simp [putKids, lookupKV, h]
    · simp [putKids, lookupKV, h0, ih]

theorem getSK_putSK_ne {sec key sec' key' : String} (t : Ptree) (v : String)
    (h : sec ≠ sec' ∨ key ≠ key') :
    getSK (putSK t sec key v) sec' key' = getSK t sec' key' := by
  induction t with
  | nil =>
    rcases h with h | h
    · simp [putSK, getSK, lookupKV, h]
    · by_cases hs : sec = sec'
      · subst hs; simp [putSK, getSK, lookupKV, h]
      · simp [putSK, getSK, lookupKV, hs]
  | cons se rest ih =>
    obtain ⟨s0, e0⟩ := se
    by_cases hs0 : s0 = sec
    · subst hs0
      by_cases hs' : s0 = sec'
      · subst hs'
        have hk : key ≠ key' := by
          rcases h with h | h
          · exact absurd rfl h
          · exact h
        simp [putSK, getSK, lookupKV, lookupKV_putKids_ne _ _ hk]
      · simp [putSK, getSK, lookupKV, hs']
    · by_cases hs' : s0 = sec'
      · subst hs'
        simp [putSK, getSK, lookupKV, hs0]
      · simpa [putSK, getSK, lookupKV, hs0, hs'] using ih

theorem StringTranslator_get (s : String) :
    StringTranslator.get_value s = Except.ok (some (stripComments s)) := rfl

theorem StringTranslator_put (s : String) : StringTranslator.put_value s = s := rfl

theorem getSK_put_path_lang (t : Ptree) (v : String) :
    getSK (putSK t "game" "path" v) "game" "language" =
      getSK t "game" "language" :=
  getSK_putSK_ne t v (Or.inr (by decide))

theorem getSK_put_path_inv (t : Ptree) (v : String) :
    getSK (putSK t "game" "path" v) "input" "invert_y" =
      getSK t "input" "invert_y" :=
  getSK_putSK_ne t v (Or.inl (by decide))

theorem getSK_put_lang_inv (t : Ptree) (v : String) :
    getSK (putSK t "game" "language" v) "input" "invert_y" =
      getSK t "input" "invert_y" :=
  getSK_putSK_ne t v (Or.inl (by decide))

theorem parseConfig_FILE_ok (fs : FS) (f c : String) (t : Ptree)
    (cfg : GameConfigRec) (d : String) (hf : fs f = some c)
    (hp : readIni c = Except.ok t) :
    parseConfig fs ParseType.FILE f ParseType.CONFIG cfg d =
      loadOutcome t cfg d := by
  simp only [parseConfig, hf, hp, read_config, StringTranslator_get,
    StringTranslator_put, loadOutcome, loadRest, resolvedLang]
  cases hP : getSK t "game" "path" with
  | none =>
    cases hL : getSK t "game" "language" with
    | none =>
      cases hB : getSK t "input" "invert_y" with
      | none => simp [hP, hL, hB, getSK_put_path_lang, getSK_put_path_inv, getSK_put_lang_inv]
      | some rawB =>
        cases hB2 : BoolTranslator.get_value rawB with
        | error e => simp [hP, hL, hB, hB2, getSK_put_path_lang, getSK_put_path_inv, getSK_put_lang_inv]
        | ok ob => cases ob <;> simp [hP, hL, hB, hB2, getSK_put_path_lang, getSK_put_path_inv, getSK_put_lang_inv]
    | some rawL =>
      cases hB : getSK t "input" "invert_y" with
      | none => simp [hP, hL, hB, getSK_put_path_lang, getSK_put_path_inv, getSK_put_lang_inv]
      | some rawB =>
        cases hB2 : BoolTranslator.get_value rawB with
        | error e => simp [hP, hL, hB, hB2, getSK_put_path_lang, getSK_put_path_inv, getSK_put_lang_inv]
        | ok ob => cases ob <;> simp [hP, hL, hB, hB2, getSK_put_path_lang, getSK_put_path_inv, getSK_put_lang_inv]
  | some rawP =>
    cases hL : getSK t "game" "language" with
    | none =>
      cases hB : getSK t "input" "invert_y" with
      | none => simp [hP, hL, hB, getSK_put_path_lang, getSK_put_path_inv, getSK_put_lang_inv]
      | some rawB =>
        cases hB2 : BoolTranslator.get_value rawB with
        | error e => simp [hP, hL, hB, hB2, getSK_put_path_lang, getSK_put_path_inv, getSK_put_lang_inv]
        | ok ob => cases ob <;> simp [hP, hL, hB, hB2, getSK_put_path_lang, getSK_put_path_inv, getSK_put_lang_inv]
    | some rawL =>
      cases hB : getSK t "input" "invert_y" with
      | none => simp [hP, hL, hB, getSK_put_path_lang, getSK_put_path_inv, getSK_put_lang_inv]
      | some rawB =>
        cases hB2 : BoolTranslator.get_value rawB with
        | error e => simp [hP, hL, hB, hB2, getSK_put_path_lang, getSK_put_path_inv, getSK_put_lang_inv]
        | ok ob => cases ob <;> simp [hP, hL, hB, hB2, getSK_put_path_lang, getSK_put_path_inv, getSK_put_lang_inv]

theorem parseConfig_STRING_nofile (fs : FS) (s : String) (destType : ParseType)
    (cfg : GameConfigRec) (d : String) (hf : fs s = none) :
    parseConfig fs ParseType.STRING s destType cfg d =
      Except.ok ⟨false, cfg, d⟩ := by
  simp [parseConfig, hf]

theorem parseConfig_FILE_syntaxError (fs : FS) (f c : String)
    (destType : ParseType) (cfg : GameConfigRec) (d : String)
    (hf : fs f = some c) (hp : readIni c = Except.error ()) :
    parseConfig fs ParseType.FILE f destType cfg d =
      Except.ok ⟨false, cfg, d⟩ := by
  simp [parseConfig, hf, hp]

theorem loadOutcome_path_missing (t : Ptree) (cfg : GameConfigRec) (d : String)
    (r : PCResult) (hP : getSK t "game" "path" = none)
    (h : loadOutcome t cfg d = Except.ok r) :
    r.ret = false ∧ r.cfg.m_gamePath = cfg.m_gamePath ∧
    r.cfg.m_gameLanguage = resolvedLang t ∧
    r.cfg.m_inputInvertY =
      (match getSK t "input" "invert_y" with
       | none => false
       | some raw =>
         match BoolTranslator.get_value raw with
         | Except.ok (some b) => b
         | _ => cfg.m_inputInvertY) := by
  simp only [loadOutcome, loadRest, hP] at h
  cases hB : getSK t "input" "invert_y" with
  | none =>
    simp only [hB] at h
    cases h
    simp
  | some raw =>
    simp only [hB] at h
    cases hB2 : BoolTranslator.get_value raw with
    | error e =>
      simp only [hB2] at h
      exact absurd h (by simp)
    | ok ob =>
      simp only [hB2] at h
      cases ob with
      | none => cases h; simp [hB2]
      | some b => cases h; simp [hB2]

theorem loadOutcome_invert_bad (t : Ptree) (cfg : GameConfigRec) (d : String)
    (r : PCResult) (raw : String)
    (hB : getSK t "input" "invert_y" = some raw)
    (hB2 : BoolTranslator.get_value raw = Except.ok none)
    (h : loadOutcome t cfg d = Except.ok r) : r.ret = false := by
  simp only [loadOutcome, loadRest, hB, hB2] at h
  cases hP : getSK t "game" "path" <;> simp only [hP] at h <;> (cases h; rfl)

theorem loadOutcome_success (t : Ptree) (cfg : GameConfigRec) (d : String)
    (r : PCResult) (h : loadOutcome t cfg d = Except.ok r)
    (hret : r.ret = true) :
    (∃ raw, getSK t "game" "path" = some raw ∧
            r.cfg.m_gamePath = stripComments raw) ∧
    ((∃ raw, getSK t "game" "language" = some raw ∧
             r.cfg.m_gameLanguage = stripComments raw) ∨
     (getSK t "game" "language" = none ∧ r.cfg.m_gameLanguage = "american")) ∧
    ((∃ raw b, getSK t "input" "invert_y" = some raw ∧
               BoolTranslator.get_value raw = Except.ok (some b) ∧
               r.cfg.m_inputInvertY = b) ∨
     (getSK t "input" "invert_y" = none ∧ r.cfg.m_inputInvertY = false)) := by
  simp only [loadOutcome, loadRest] at h
  cases hP : getSK t "game" "path" with
  | none =>
    simp only [hP] at h
    cases hB : getSK t "input" "invert_y" with
    | none => simp only [hB] at h; cases h; simp at hret
    | some raw =>
      simp only [hB] at h
      cases hB2 : BoolTranslator.get_value raw with
      | error e =>
        simp only [hB2] at h
        exact absurd h (by simp)
      | ok ob =>
        simp only [hB2] at h
        cases ob with
        | none => cases h; simp at hret
        | some b => cases h; simp at hret
  | some rawP =>
    simp only [hP] at h
    cases hB : getSK t "input" "invert_y" with
    | none =>
      simp only [hB] at h
      cases h
      refine ⟨⟨rawP, rfl, rfl⟩, ?_, Or.inr ⟨rfl, rfl⟩⟩
      cases hL : getSK t "game" "language" with
      | none => exact Or.inr ⟨rfl, by simp [resolvedLang, hL]⟩
      | some rawL => exact Or.inl ⟨rawL, rfl, by simp [resolvedLang, hL]⟩
    | some raw =>
      simp only [hB] at h
      cases hB2 : BoolTranslator.get_value raw with
      | error e =>
        simp only [hB2] at h
        exact absurd h (by simp)
      | ok ob =>
        simp only [hB2] at h
        cases ob with
        | none => cases h; simp at hret
        | some b =>
          cases h
          refine ⟨⟨rawP, rfl, rfl⟩, ?_, Or.inl ⟨raw, b, rfl, hB2, rfl⟩⟩
          cases hL : getSK t "game" "language" with
          | none => exact Or.inr ⟨rfl, by simp [resolvedLang, hL]⟩
          | some rawL => exact Or.inl ⟨rawL, rfl, by simp [resolvedLang, hL]⟩

/-! ## Claim theorems -/

/-- C1 (counterexample): a FILE source whose contents lack `game.path` but
carry an out-of-range `invert_y` token makes the load raise the uncaught
`std::out_of_range` instead of returning false — so it is not the case that
every source lacking `game.path` makes the load *return* false. -/
theorem C1_counterexample :
    readIni c1Text = Except.ok c1Tree ∧
    getSK c1Tree "game" "path" = none ∧
    parseConfig (fsWith "openrw.ini" c1Text) ParseType.FILE "openrw.ini"
      ParseType.CONFIG freshRec "" = Except.error Exc.outOfRange :=
  ⟨rfl, rfl, rfl⟩

/-- C1 (amended): for every FILE source whose contents parse to a tree with
`game.path` absent, a `FILE → CONFIG` load that completes normally returns
false, and `isValid()` on a `GameConfig` constructed from such a file is
false; a STRING source is treated as a *filename* (see C2), and when no such
file exists the load likewise returns false with the record untouched. -/
theorem C1_amended :
    (∀ (fs : FS) (f c : String) (t : Ptree) (cfg : GameConfigRec) (d : String)
       (r : PCResult), fs f = some c → readIni c = Except.ok t →
       getSK t "game" "path" = none →
       parseConfig fs ParseType.FILE f ParseType.CONFIG cfg d = Except.ok r →
       r.ret = false) ∧
    (∀ (fs : FS) (nm pth c : String) (t : Ptree) (rc : GameConfigRec),
       fs (pth ++ "/" ++ nm) = some c → readIni c = Except.ok t →
       getSK t "game" "path" = none →
       GameConfig.construct fs nm pth = Except.ok rc →
       rc.isValid = false) ∧
    (∀ (fs : FS) (s : String) (cfg : GameConfigRec) (d : String),
       fs s = none →
       parseConfig fs ParseType.STRING s ParseType.CONFIG cfg d =
         Except.ok ⟨false, cfg, d⟩) := by
  refine ⟨?_, ?_, ?_⟩
  · intro fs f c t cfg d r hf hp hP hload
    rw [parseConfig_FILE_ok fs f c t cfg d hf hp] at hload
    exact (loadOutcome_path_missing t cfg d r hP hload).1
  · intro fs nm pth c t rc hf hp hP hc
    simp only [GameConfig.construct] at hc
    rw [parseConfig_FILE_ok fs _ c t _ _ hf hp] at hc
    cases hload : loadOutcome t ⟨"", "", false, false⟩ "" with
    | error e =>
      simp only [hload] at hc
      exact absurd hc (by simp)
    | ok r =>
      simp only [hload] at hc
      cases hc
      have hret := (loadOutcome_path_missing t _ _ r hP hload).1
      simp [GameConfigRec.isValid, hret]
  · intro fs s cfg d hf
    exact parseConfig_STRING_nofile fs s ParseType.CONFIG cfg d hf

/-- C1 (witness): the amended theorem applied to a concrete FILE source
lacking `game.path`. -/
theorem C1_amended_witness :
    (⟨false, ⟨"", "american", false, false⟩, ""⟩ : PCResult).ret = false :=
  C1_amended.1 (fsWith "cfg.ini" noPathText) "cfg.ini" noPathText noPathTree
    freshRec "" ⟨false, ⟨"", "american", false, false⟩, ""⟩ rfl rfl rfl rfl

/-- C2 (code evaluated at the failing input): the C++ passes a STRING source
to the *filename* overload of `read_ini`, so loading the spec's example text
as a STRING source fails (no file named by that text), the record is left
untouched — and if a file whose *name* is the source text happens to exist,
its contents are parsed instead of the source.  The same text loaded as the
contents of a FILE source succeeds exactly as the claim describes. -/
theorem C2_string_source_bug :
    parseConfig fsEmpty ParseType.STRING iniGta3 ParseType.CONFIG freshRec "" =
      Except.ok ⟨false, freshRec, ""⟩ ∧
    parseConfig (fsWith iniGta3 "[game]\npath=/other") ParseType.STRING iniGta3
      ParseType.CONFIG freshRec "" =
      Except.ok ⟨true, ⟨"/other", "american", false, false⟩, ""⟩ ∧
    parseConfig (fsWith "openrw.ini" iniGta3) ParseType.FILE "openrw.ini"
      ParseType.CONFIG freshRec "" =
      Except.ok ⟨true, ⟨"/data/games/gta3", "american", false, false⟩, ""⟩ :=
  ⟨rfl, rfl, rfl⟩

/-- C3 (code evaluated at the failing input): reloading the text produced by
`getDefaultINIString()` as a STRING source fails (the text is treated as a
filename), leaving the fresh record untouched; the same text loaded as the
contents of a FILE source yields the successful all-defaults load the claim
describes. -/
theorem C3_roundtrip_bug :
    parseConfig fsEmpty ParseType.STRING (getDefaultINIString fsEmpty freshRec).1
      ParseType.CONFIG freshRec "" = Except.ok ⟨false, freshRec, ""⟩ ∧
    parseConfig (fsWith "defaults.ini" (getDefaultINIString fsEmpty freshRec).1)
      ParseType.FILE "defaults.ini" ParseType.CONFIG freshRec "" =
      Except.ok
        ⟨true, ⟨"/opt/games/Grand Theft Auto 3", "american", false, false⟩, ""⟩ :=
  ⟨rfl, rfl⟩

/-- C4: boolean codec behaviour during a load: tokens `1`, `2`, `-1` decode
to true and `0` to false, at the codec level and through whole
`FILE → CONFIG` loads of `input.invert_y`; non-numeric text (`yes`) fails the
overall load, while an absent key succeeds with the default false; on write
the codec emits "1"/"0". -/
theorem C4_bool_codec :
    BoolTranslator.get_value "1" = Except.ok (some true) ∧
    BoolTranslator.get_value "2" = Except.ok (some true) ∧
    BoolTranslator.get_value "-1" = Except.ok (some true) ∧
    BoolTranslator.get_value "0" = Except.ok (some false) ∧
    BoolTranslator.get_value "yes" = Except.ok none ∧
    parseConfig (fsWith "f" (c4Src "1")) ParseType.FILE "f" ParseType.CONFIG
      freshRec "" = Except.ok ⟨true, ⟨"/x", "american", true, false⟩, ""⟩ ∧
    parseConfig (fsWith "f" (c4Src "2")) ParseType.FILE "f" ParseType.CONFIG
      freshRec "" = Except.ok ⟨true, ⟨"/x", "american", true, false⟩, ""⟩ ∧
    parseConfig (fsWith "f" (c4Src "-1")) ParseType.FILE "f" ParseType.CONFIG
      freshRec "" = Except.ok ⟨true, ⟨"/x", "american", true, false⟩, ""⟩ ∧
    parseConfig (fsWith "f" (c4Src "0")) ParseType.FILE "f" ParseType.CONFIG
      freshRec "" = Except.ok ⟨true, ⟨"/x", "american", false, false⟩, ""⟩ ∧
    parseConfig (fsWith "f" (c4Src "yes")) ParseType.FILE "f" ParseType.CONFIG
      freshRec "" = Except.ok ⟨false, ⟨"/x", "american", false, false⟩, ""⟩ ∧
    parseConfig (fsWith "f" c4Absent) ParseType.FILE "f" ParseType.CONFIG
      freshRec "" = Except.ok ⟨true, ⟨"/x", "american", false, false⟩, ""⟩ ∧
    BoolTranslator.put_value true = "1" ∧
    BoolTranslator.put_value false = "0" :=
  ⟨rfl, rfl, rfl, rfl, rfl, rfl, rfl, rfl, rfl, rfl, rfl, rfl, rfl⟩

/-- C5 (counterexample): undecodable text for the *optional* boolean field
`input.invert_y` does fail the whole load (ret = false), even though
`game.path` is present and well-formed — the claim that it is "not an error
by itself" for optional fields is false on the code. -/
theorem C5_counterexample :
    BoolTranslator.get_value "yes" = Except.ok none ∧
    readIni c5Text = Except.ok c5Tree ∧
    getSK c5Tree "game" "path" = some "/x" ∧
    parseConfig (fsWith "cfg.ini" c5Text) ParseType.FILE "cfg.ini"
      ParseType.CONFIG freshRec "" =
      Except.ok ⟨false, ⟨"/x", "american", false, false⟩, ""⟩ :=
  ⟨rfl, rfl, rfl, rfl⟩

/-- C5 (amended): text the boolean codec cannot decode yields "absent"
(empty optional) at the codec level, but `read_config` treats undecodable
data as an error even for optional fields: every load whose source carries
undecodable text for `input.invert_y` and that completes normally returns
false. -/
theorem C5_amended :
    BoolTranslator.get_value "yes" = Except.ok none ∧
    (∀ (fs : FS) (f c : String) (t : Ptree) (cfg : GameConfigRec) (d : String)
       (r : PCResult) (raw : String),
       fs f = some c → readIni c = Except.ok t →
       getSK t "input" "invert_y" = some raw →
       BoolTranslator.get_value raw = Except.ok none →
       parseConfig fs ParseType.FILE f ParseType.CONFIG cfg d = Except.ok r →
       r.ret = false) := by
  refine ⟨rfl, ?_⟩
  intro fs f c t cfg d r raw hf hp hB hB2 hload
  rw [parseConfig_FILE_ok fs f c t cfg d hf hp] at hload
  exact loadOutcome_invert_bad t cfg d r raw hB hB2 hload

/-- C5 (witness): the amended theorem applied to a concrete source with
`invert_y=yes`. -/
theorem C5_amended_witness :
    (⟨false, ⟨"/x", "american", false, false⟩, ""⟩ : PCResult).ret = false :=
  C5_amended.2 (fsWith "cfg5.ini" c5Text) "cfg5.ini" c5Text c5Tree freshRec ""
    ⟨false, ⟨"/x", "american", false, false⟩, ""⟩ "yes" rfl rfl rfl rfl rfl

/-- C6: the string codec decodes every value string to the prefix before the
first `;` or `#` (the whole string when neither occurs) with trailing
whitespace (space, \n, \r, \t) removed; encoding is the identity; and
`american ; default` decodes to `american`. -/
theorem C6_string_codec :
    (∀ s : String,
       StringTranslator.get_value s =
         Except.ok (some ⟨rstripSpec (prefixSpec s.data)⟩)) ∧
    (∀ s : String, StringTranslator.put_value s = s) ∧
    stripComments "american ; default" = "american" := by
  refine ⟨fun s => ?_, fun s => rfl, rfl⟩
  rw [StringTranslator_get]
  simp [stripComments, stripCommentsL_eq]

/-- C7: a syntax error in the source (e.g. duplicate keys) makes the load
return false before any field descriptor runs: the in-memory record and the
destination are returned exactly as given.  For a FILE source this is a
parse error of the contents; a STRING source is treated as a filename, and
the analogous pre-field failure is "cannot open file".  `dupKeyText` shows
duplicate keys are such a syntax error. -/
theorem C7_syntax_error_atomic :
    (∀ (fs : FS) (f c : String) (cfg : GameConfigRec) (d : String),
       fs f = some c → readIni c = Except.error () →
       parseConfig fs ParseType.FILE f ParseType.CONFIG cfg d =
         Except.ok ⟨false, cfg, d⟩) ∧
    (∀ (fs : FS) (s : String) (cfg : GameConfigRec) (d : String),
       fs s = none →
       parseConfig fs ParseType.STRING s ParseType.CONFIG cfg d =
         Except.ok ⟨false, cfg, d⟩) ∧
    readIni dupKeyText = Except.error () :=
  ⟨fun fs f c cfg d hf hp =>
      parseConfig_FILE_syntaxError fs f c ParseType.CONFIG cfg d hf hp,
   fun fs s cfg d hf => parseConfig_STRING_nofile fs s ParseType.CONFIG cfg d hf,
   rfl⟩

/-- C7 (witness): a load of the duplicate-key source returns false and
leaves a nontrivial record and destination untouched. -/
theorem C7_witness :
    parseConfig (fsWith "cfg7.ini" dupKeyText) ParseType.FILE "cfg7.ini"
      ParseType.CONFIG ⟨"/keep", "kept", true, true⟩ "dest" =
      Except.ok ⟨false, ⟨"/keep", "kept", true, true⟩, "dest"⟩ :=
  C7_syntax_error_atomic.1 (fsWith "cfg7.ini" dupKeyText) "cfg7.ini" dupKeyText
    ⟨"/keep", "kept", true, true⟩ "dest" rfl rfl

/-- C8 (counterexample): with `game.path` absent, an out-of-range token in a
remaining field aborts the load by an uncaught exception — the operation
then neither returns false nor finishes processing the remaining fields. -/
theorem C8_counterexample :
    readIni c8Text = Except.ok c8Tree ∧
    getSK c8Tree "game" "path" = none ∧
    parseConfig (fsWith "cfg8.ini" c8Text) ParseType.FILE "cfg8.ini"
      ParseType.CONFIG freshRec "" = Except.error Exc.outOfRange :=
  ⟨rfl, rfl, rfl⟩

/-- C8 (amended): when `game.path` is absent from a FILE source and the load
completes normally, it returns false but still processes the remaining
descriptors: `game.path` itself is left untouched, `game.language` is
written with its resolved value (from source or default), and
`input.invert_y` is written with its resolved value when it resolves
(present-and-decodable, or absent-with-default) and left unchanged when its
text fails to decode — fields stay set as processed, with no rollback. -/
theorem C8_amended :
    ∀ (fs : FS) (f c : String) (t : Ptree) (cfg : GameConfigRec) (d : String)
      (r : PCResult), fs f = some c → readIni c = Except.ok t →
      getSK t "game" "path" = none →
      parseConfig fs ParseType.FILE f ParseType.CONFIG cfg d = Except.ok r →
      r.ret = false ∧ r.cfg.m_gamePath = cfg.m_gamePath ∧
      r.cfg.m_gameLanguage = resolvedLang t ∧
      r.cfg.m_inputInvertY =
        (match getSK t "input" "invert_y" with
         | none => false
         | some raw =>
           match BoolTranslator.get_value raw with
           | Except.ok (some b) => b
           | _ => cfg.m_inputInvertY) := by
  intro fs f c t cfg d r hf hp hP hload
  rw [parseConfig_FILE_ok fs f c t cfg d hf hp] at hload
  exact loadOutcome_path_missing t cfg d r hP hload

/-- C8 (witness): the amended theorem applied to a concrete source lacking
`game.path`: the load returns false, yet `language=french ; x` and
`invert_y=2` have been decoded and written into the record. -/
theorem C8_amended_witness :
    c8WitnessRes.ret = false ∧
    c8WitnessRes.cfg.m_gamePath = freshRec.m_gamePath ∧
    c8WitnessRes.cfg.m_gameLanguage = resolvedLang c8WitnessTree ∧
    c8WitnessRes.cfg.m_inputInvertY =
      (match getSK c8WitnessTree "input" "invert_y" with
       | none => false
       | some raw =>
         match BoolTranslator.get_value raw with
         | Except.ok (some b) => b
         | _ => freshRec.m_inputInvertY) :=
  C8_amended (fsWith "cfg8w.ini" c8WitnessText) "cfg8w.ini" c8WitnessText
    c8WitnessTree freshRec "" c8WitnessRes rfl rfl rfl rfl

/-- C9: a numeric token outside the range of `int` makes `std::stoi` raise
`std::out_of_range`, which no handler in the translators or `read_config`
catches: it escapes the codec, the whole `parseConfig` call, and the
`GameConfig` constructor, instead of being reported as a boolean failure. -/
theorem C9_overflow_exception :
    stoi "99999999999999999999" = Except.error StoiErr.outOfRange ∧
    BoolTranslator.get_value "99999999999999999999" =
      Except.error Exc.outOfRange ∧
    IntTranslator.get_value "99999999999999999999" =
      Except.error Exc.outOfRange ∧
    parseConfig (fsWith "cfg9.ini" c9Text) ParseType.FILE "cfg9.ini"
      ParseType.CONFIG freshRec "" = Except.error Exc.outOfRange ∧
    GameConfig.construct (fsWith "p/cfg.ini" c9Text) "cfg.ini" "p" =
      Except.error Exc.outOfRange :=
  ⟨rfl, rfl, rfl, rfl, rfl⟩

/-- C10: `saveConfig()` (CONFIG → FILE) and `getDefaultINIString()`
(DEFAULT → STRING) never assign to the record's fields: every field of the
in-memory settings record, `m_valid` included, is returned unchanged. -/
theorem C10_frame :
    ∀ (fs : FS) (cfg : GameConfigRec) (configFile : String),
      (saveConfig fs cfg configFile).2 = cfg ∧
      (getDefaultINIString fs cfg).2 = cfg :=
  fun _fs _cfg _configFile => ⟨rfl, rfl⟩
